import Mathlib

/-!
Verification of the cross-border semantic-negotiation engine.

This file gives a shallow embedding, in Lean 4, of the core data model and
operations of the repository (`src/cross_border_implementation.py`,
`src/server.py`, `src/enhanced_server.py`, `src/enhanced_demo.py`) and proves
or refutes the specification claims about them.

Conventions of the embedding:
* Python floats are modelled as rationals (`ℚ`); all confidence values in the
  source are decimal literals, so this is exact.
* Python dicts are modelled as insertion-ordered association lists
  (`List (String × _)`), with `dict_set` reproducing the update semantics
  (overwrite in place, append when the key is new).
* Fallible Python code (uncaught exceptions) is modelled with `Except`.
* Calls to `random.uniform(a, b)`, which are implemented in CPython as
  `a + (b - a) * random()`, are modelled by threading an explicit draw
  stream `u : ℕ → ℚ` of the underlying `random()` outputs (each in `[0, 1)`)
  together with a counter for the next draw.
* Presentational string fields that no claim mentions (the `explanation` /
  `method` strings attached to alignments) are omitted from the records.
-/

/-- Country codes, from the `CountryCode` enum of
`cross_border_implementation.py`. -/
inductive CountryCode where
  | ITALY
  | GERMANY
  | FRANCE
  | SPAIN
deriving DecidableEq

/-- Value of the `CountryCode` enum members (ISO 3166-1 Alpha-2 codes). -/
def CountryCode.value : CountryCode → String
  | .ITALY => "IT"
  | .GERMANY => "DE"
  | .FRANCE => "FR"
  | .SPAIN => "ES"

/-- JSON-like record values flowing through `transform_citizen_data`:
strings, objects (Python dicts) and arrays (Python lists), which are the
shapes occurring in the ANPR / civil-registry records of the source. -/
inductive Value where
  | vstr (s : String)
  | vobj (fields : List (String × Value))
  | varr (items : List Value)

/-- Python truthiness of a record value, as used by the comprehension
`[v for v in value.values() if v]` in `_transform_data_structure`. -/
def truthy : Value → Bool
  | .vstr s => ¬ s.data.isEmpty
  | .vobj l => ¬ l.isEmpty
  | .varr l => ¬ l.isEmpty

/-- ASCII lower-casing of one character (the Python `str.lower()` restricted
to the ASCII field names occurring in the schemas). -/
def lower_char (c : Char) : Char :=
  if 65 ≤ c.toNat ∧ c.toNat ≤ 90 then Char.ofNat (c.toNat + 32) else c

/-- Python `s.lower()` on ASCII strings. -/
def lower_str (s : String) : String :=
  ⟨s.data.map lower_char⟩

/-- Python `s.startswith(p)`. -/
def str_starts_with (s p : String) : Bool :=
  p.data.isPrefixOf s.data

/-- Python `s.split(sep)` for a one-character separator, on character lists:
splitting the empty string yields one empty group, and adjacent separators
yield empty groups. -/
def split_on_char (sep : Char) : List Char → List (List Char)
  | [] => [[]]
  | c :: rest =>
      match split_on_char sep rest with
      | acc :: groups =>
          if c = sep then [] :: acc :: groups else (c :: acc) :: groups
      | [] => [[c]]

/-- Embedding of the `SemanticAlignment` dataclass of
`cross_border_implementation.py` (the optional `data_type_mapping` and
`validation_rule` fields, always `None` in the code, are omitted). -/
structure SemanticAlignment where
  source_field : String
  target_field : String
  confidence_score : ℚ
  alignment_type : String
  transformation_rule : String
deriving DecidableEq

/-- First-match association-list lookup: Python `d[k]` / `d.get(k)`. -/
def dict_find (d : List (String × α)) (k : String) : Option α :=
  match d with
  | [] => none
  | (k₁, v₁) :: rest => if k₁ = k then some v₁ else dict_find rest k

/-- Python `d[k] = v` on an insertion-ordered dict: overwrite the value in
place when the key exists, append the pair otherwise. -/
def dict_set (d : List (String × α)) (k : String) (v : α) : List (String × α) :=
  match d with
  | [] => [(k, v)]
  | (k₁, v₁) :: rest =>
      if k₁ = k then (k, v) :: rest else (k₁, v₁) :: dict_set rest k v

/-- Digits-to-number accumulator for date parsing. -/
def digits_to_nat (l : List Char) : Nat :=
  l.foldl (fun n c => 10 * n + (c.toNat - 48)) 0

/-- Test for an ASCII digit character. -/
def is_digit_char (c : Char) : Bool :=
  48 ≤ c.toNat ∧ c.toNat ≤ 57

/-- Parse one day or month component exactly as CPython `_strptime` does for
`%d` / `%m`: one or two digit characters whose value is between 1 and `hi`. -/
def parse_two_digit (cs : List Char) (hi : Nat) : Option Nat :=
  if cs.all is_digit_char ∧ 1 ≤ cs.length ∧ cs.length ≤ 2 then
    let v := digits_to_nat cs
    if 1 ≤ v ∧ v ≤ hi then some v else none
  else none

/-- Parse the year component as CPython `_strptime` does for `%Y`: exactly
four digit characters; `datetime` additionally rejects year 0. -/
def parse_year_component (cs : List Char) : Option Nat :=
  if cs.all is_digit_char ∧ cs.length = 4 then
    let v := digits_to_nat cs
    if 1 ≤ v then some v else none
  else none

/-- Gregorian leap-year test used by `datetime` when validating the day. -/
def is_leap_year (y : Nat) : Bool :=
  y % 4 = 0 ∧ (y % 100 ≠ 0 ∨ y % 400 = 0)

/-- Number of days of month `m` in year `y`, as validated by `datetime`. -/
def days_in_month (y m : Nat) : Nat :=
  if m = 2 then (if is_leap_year y then 29 else 28)
  else if m = 4 ∨ m = 6 ∨ m = 9 ∨ m = 11 then 30
  else 31

/-- Embedding of `datetime.strptime(date_value, "%d/%m/%Y")`: returns
`some (year, month, day)` when the string parses, `none` when CPython would
raise `ValueError` (wrong shape, non-digits, out-of-range components, or a
day that does not exist in the month). -/
def strptime_dd_mm_yyyy (s : String) : Option (Nat × Nat × Nat) :=
  match split_on_char '/' s.data with
  | [ds, ms, ys] =>
      match parse_two_digit ds 31, parse_two_digit ms 12, parse_year_component ys with
      | some d, some m, some y =>
          if d ≤ days_in_month y m then some (y, m, d) else none
      | _, _, _ => none
  | _ => none

/-- Zero-pad a day or month number to two characters (strftime `%d` / `%m`). -/
def pad_two (n : Nat) : String :=
  if n < 10 then "0" ++ toString n else toString n

/-- Embedding of `date_obj.strftime("%Y-%m-%dT00:00:00Z")`. -/
def strftime_iso_z (y m d : Nat) : String :=
  toString y ++ "-" ++ pad_two m ++ "-" ++ pad_two d ++ "T00:00:00Z"

/-- Embedding of `EuropeanDigitalServiceAgent._transform_date_format`.
Returns the converted string together with a flag that is `true` exactly when
the code takes its `except ValueError` branch and prints the
date-format-transformation-failed warning (returning the raw value there). -/
def transform_date_format (date_value : String)
    (source_country target_country : CountryCode) : String × Bool :=
  if source_country = CountryCode.ITALY ∧ target_country = CountryCode.GERMANY then
    match strptime_dd_mm_yyyy date_value with
    | some (y, m, d) => (strftime_iso_z y m d, false)
    | none => (date_value, true)
  else (date_value, false)

/-- Embedding of `EuropeanDigitalServiceAgent._transform_enum_value`:
the Italian-to-German gender map `{"M": "MALE", "F": "FEMALE"}` applied via
`gender_map.get(value, value)` when the fields are `sesso` → `geschlecht`,
identity otherwise. -/
def transform_enum_value (value source_field target_field : String) : String :=
  if source_field = "sesso" ∧ target_field = "geschlecht" then
    if value = "M" then "MALE"
    else if value = "F" then "FEMALE"
    else value
  else value

/-- Embedding of `EuropeanDigitalServiceAgent._transform_data_structure`:
for the `genitori` → `eltern` alignment a dict value becomes the list of its
truthy values (in insertion order); everything else passes through. -/
def transform_data_structure (value : Value) (a : SemanticAlignment) : Value :=
  if a.source_field = "genitori" ∧ a.target_field = "eltern" then
    match value with
    | .vobj l => .varr ((l.map Prod.snd).filter truthy)
    | v => v
  else value

/-- Embedding of `EuropeanDigitalServiceAgent._derive_nationality_from_tax_code`
(the `tax_code` argument is ignored by the code). -/
def derive_nationality_from_tax_code (source_country : CountryCode) : String :=
  if source_country = CountryCode.ITALY then "Italian"
  else if source_country = CountryCode.GERMANY then "German"
  else source_country.value

/-- Embedding of `EuropeanDigitalServiceAgent._apply_field_transformation`,
dispatching on the prefix of the alignment transformation-rule string.
`Except.error` marks the inputs where the Python code would raise an uncaught
`TypeError` (a non-string value reaching `strptime`, or an unhashable value
used as a `gender_map` key). -/
def apply_field_transformation (value : Value) (a : SemanticAlignment)
    (source_country target_country : CountryCode) : Except String Value :=
  if str_starts_with a.transformation_rule ("DIRECT_MAP") then .ok value
  else if str_starts_with a.transformation_rule ("DATE_FORMAT_TRANSFORM") then
    match value with
    | .vstr s => .ok (.vstr (transform_date_format s source_country target_country).1)
    | _ => .error ("TypeError: strptime expects a string")
  else if str_starts_with a.transformation_rule ("STRUCTURE_TRANSFORM") then
    .ok (transform_data_structure value a)
  else if str_starts_with a.transformation_rule ("ENUM_TRANSFORM") then
    match value with
    | .vstr s => .ok (.vstr (transform_enum_value s a.source_field a.target_field))
    | v =>
        if a.source_field = "sesso" ∧ a.target_field = "geschlecht" then
          .error ("TypeError: unhashable dict key")
        else .ok v
  else if str_starts_with a.transformation_rule ("DERIVE_NATIONALITY") then
    .ok (.vstr (derive_nationality_from_tax_code source_country))
  else .ok value

/-- Per-alignment loop of `EuropeanDigitalServiceAgent.transform_citizen_data`:
for each alignment whose source field is present in the source record, apply
its transformation and store the result under the target field. -/
def transform_citizen_loop (alignments : List SemanticAlignment)
    (source_dict : List (String × Value)) (source_country target_country : CountryCode)
    (transformed_data : List (String × Value)) : Except String (List (String × Value)) :=
  match alignments with
  | [] => .ok transformed_data
  | a :: rest =>
      match dict_find source_dict a.source_field with
      | some source_value =>
          match apply_field_transformation source_value a source_country target_country with
          | .ok transformed_value =>
              transform_citizen_loop rest source_dict source_country target_country
                (dict_set transformed_data a.target_field transformed_value)
          | .error e => .error e
      | none => transform_citizen_loop rest source_dict source_country target_country transformed_data

/-- Embedding of `EuropeanDigitalServiceAgent.transform_citizen_data`: the
per-alignment loop followed by the nationality special case, which writes
`staatsangehoerigkeit` whenever the record contains `codice_fiscale` and the
target country is Germany, alignments or not. -/
def transform_citizen_data (alignments : List SemanticAlignment)
    (source_dict : List (String × Value)) (source_country target_country : CountryCode) :
    Except String (List (String × Value)) :=
  match transform_citizen_loop alignments source_dict source_country target_country [] with
  | .error e => .error e
  | .ok transformed_data =>
      match dict_find source_dict ("codice_fiscale") with
      | some _ =>
          if target_country = CountryCode.GERMANY then
            .ok (dict_set transformed_data ("staatsangehoerigkeit")
              (.vstr (derive_nationality_from_tax_code source_country)))
          else .ok transformed_data
      | none => .ok transformed_data

/-- Embedding of `EuropeanDigitalServiceAgent._build_transformation_map`:
keep the source-to-target pairs of the alignments whose confidence is at
least the agent confidence threshold, in a dict keyed by source field. -/
def build_transformation_map (confidence_threshold : ℚ)
    (alignments : List SemanticAlignment) : List (String × String) :=
  alignments.foldl
    (fun m a =>
      if a.confidence_score ≥ confidence_threshold then
        dict_set m a.source_field a.target_field
      else m)
    []

/-- Embedding of `EuropeanDigitalServiceAgent._fallback_rule_based_alignment`:
the predefined Italy-to-Germany demo alignments. -/
def fallback_rule_based_alignment : List SemanticAlignment :=
  [ ⟨"cognome", "familienname", 95/100, "exact", "DIRECT_MAP(cognome -> familienname)"⟩,
    ⟨"nome", "vorname", 93/100, "exact", "DIRECT_MAP(nome -> vorname)"⟩,
    ⟨"data_nascita", "geburtsdatum", 87/100, "exact", "DATE_FORMAT_TRANSFORM(data_nascita -> geburtsdatum)"⟩,
    ⟨"luogo_nascita", "geburtsort", 91/100, "exact", "DIRECT_MAP(luogo_nascita -> geburtsort)"⟩,
    ⟨"genitori", "eltern", 78/100, "related", "STRUCTURE_TRANSFORM(genitori -> eltern)"⟩,
    ⟨"sesso", "geschlecht", 89/100, "exact", "ENUM_TRANSFORM(sesso -> geschlecht)"⟩,
    ⟨"codice_fiscale", "staatsangehoerigkeit", 65/100, "related", "DERIVE_NATIONALITY(codice_fiscale -> staatsangehoerigkeit)"⟩ ]

/-- Confidence score the fallback branch of
`EuropeanDigitalServiceAgent._perform_semantic_negotiation` stores in the
request (`request.confidence_score = 0.85  # Demo confidence score`). -/
def fallback_confidence_score : ℚ := 85/100

/-- Embedding of `SemanticNegotiator._calculate_overall_confidence` from
`server.py`, applied to the list of per-alignment confidence values
(`a['alignment']['confidence']` for each accumulated alignment dict):
their arithmetic mean, and 0.0 for an empty list. -/
def calculate_overall_confidence (confidences : List ℚ) : ℚ :=
  if confidences = [] then 0 else confidences.sum / confidences.length

/-- Status assignment of
`EuropeanDigitalServiceAgent.process_cross_border_request` after semantic
negotiation: `approved` when the confidence score reaches the agent
threshold, `requires_manual_review` otherwise. -/
def request_status (confidence_score confidence_threshold : ℚ) : String :=
  if confidence_score ≥ confidence_threshold then "approved"
  else "requires_manual_review"

/-- Boolean substring test on character lists, embedding Python
`part in target` on strings. -/
def list_is_infix_of (needle haystack : List Char) : Bool :=
  match haystack with
  | [] => needle.isEmpty
  | _ :: rest => needle.isPrefixOf haystack || list_is_infix_of needle rest

/-- Fixed cross-lingual synonym table `semantic_mappings` of
`MockClaudeService.analyze_semantic_similarity` in `enhanced_server.py`. -/
def semantic_mappings : List (String × List String) :=
  [ ("nome", ["firstName", "first_name", "givenName"]),
    ("cognome", ["lastName", "last_name", "surname", "familyName"]),
    ("codice_fiscale", ["taxId", "tax_id", "fiscalCode"]),
    ("data_nascita", ["birthDate", "birth_date", "dateOfBirth"]),
    ("luogo_nascita", ["birthPlace", "birth_place", "placeOfBirth"]),
    ("user_id", ["personalId", "personal_id", "userId", "id"]),
    ("firstName", ["nome", "first_name", "givenName"]),
    ("lastName", ["cognome", "last_name", "surname"]),
    ("personalId", ["user_id", "userId", "id"]),
    ("taxId", ["codice_fiscale", "fiscal_code", "tax_id"]),
    ("birthDate", ["data_nascita", "birth_date", "dateOfBirth"]),
    ("birthPlace", ["luogo_nascita", "birth_place", "placeOfBirth"]) ]

/-- Which branch of the per-pair confidence computation fired (the spec calls
this the basis of a candidate match). -/
inductive MatchBasis where
  | exact
  | semantic
  | token_overlap
  | type_only
  | no_match
deriving DecidableEq

/-- Per-pair confidence computation of
`MockClaudeService.analyze_semantic_similarity` (the if/elif chain over one
source field and one target field).  `u` is the stream of `random()` draws
underlying `random.uniform` and `k` the index of the next draw; the result
carries the confidence, the branch that fired, and the next draw index.
Note the elif structure: a source field present in the synonym table whose
list does not contain the target field scores 0 without trying the later
branches. -/
def pair_score (u : ℕ → ℚ) (k : ℕ) (source_field target_field : String)
    (source_type : String) (target_type : Option String) : ℚ × MatchBasis × ℕ :=
  if lower_str source_field = lower_str target_field then (95/100, .exact, k)
  else
    match dict_find semantic_mappings source_field with
    | some targets =>
        if target_field ∈ targets then (85/100 + (1/20 + 1/20 * u k), .semantic, k + 1)
        else (0, .no_match, k)
    | none =>
        if (split_on_char '_' (lower_str source_field).data).any
            (fun part => list_is_infix_of part (lower_str target_field).data) then
          (6/10 + (1/10 + 1/10 * u k), .token_overlap, k + 1)
        else if target_type = some source_type then
          (3/10 + (1/10 + 1/10 * u k), .type_only, k + 1)
        else (0, .no_match, k)

/-- One scored target candidate for a fixed source field (the presentational
explanation string is omitted). -/
structure Candidate where
  target_field : String
  confidence : ℚ
deriving DecidableEq

/-- Best-candidate tracking loop of
`MockClaudeService.analyze_semantic_similarity`: starting from
`best_match = None`, `best_confidence = 0.0`, replace the best pair whenever a
candidate confidence strictly exceeds the current best (ties keep the earlier
target). -/
def select_loop : List Candidate → Option String → ℚ → Option String × ℚ
  | [], best_match, best_confidence => (best_match, best_confidence)
  | c :: rest, best_match, best_confidence =>
      if c.confidence > best_confidence then
        select_loop rest (some c.target_field) c.confidence
      else select_loop rest best_match best_confidence

/-- Selection policy of `MockClaudeService.analyze_semantic_similarity`
(lines 102-142), abstracted over the scored candidates of one source field:
run the best-tracking loop, then keep the winner only under the guard
`if best_match and best_confidence > 0.3` (Python string truthiness rejects
an empty-string target, and the floor test is strict). -/
def select_best (candidates : List Candidate) : Option Candidate :=
  match select_loop candidates none 0 with
  | (some best_match, best_confidence) =>
      if ¬ best_match.data.isEmpty ∧ best_confidence > 3/10 then
        some ⟨best_match, best_confidence⟩
      else none
  | (none, _) => none

/-- Python `round(x, 3)` modelled as rounding to the nearest thousandth
(CPython rounds the underlying binary float half-to-even; exact half
thousandths do not occur for the rational values produced here). -/
def round3 (q : ℚ) : ℚ :=
  ((round (1000 * q) : ℤ) : ℚ) / 1000

/-- Inner target loop of `MockClaudeService.analyze_semantic_similarity`:
score the fixed source field against every target field in order, threading
the draw counter (`target_schema.get(target_field)` always succeeds because
the candidates are the schema keys themselves). -/
def candidates_for (u : ℕ → ℚ) (k : ℕ) (source_field source_type : String)
    (target_schema : List (String × String)) : List Candidate × ℕ :=
  match target_schema with
  | [] => ([], k)
  | (target_field, target_type) :: rest =>
      let r := pair_score u k source_field target_field source_type (some target_type)
      let rest_result := candidates_for u r.2.2 source_field source_type rest
      (⟨target_field, r.1⟩ :: rest_result.1, rest_result.2)

/-- One produced similarity entry of
`MockClaudeService.analyze_semantic_similarity` (explanation string omitted);
`confidence` is the Python `round(best_confidence, 3)`. -/
structure Similarity where
  source_field : String
  target_field : String
  confidence : ℚ
deriving DecidableEq

/-- Embedding of `MockClaudeService.analyze_semantic_similarity` from
`enhanced_server.py`: for each source field in order, score all targets,
select the best candidate, and append a similarity entry exactly when the
selection guard passes; source fields failing the guard contribute nothing
to the result (the returned dict records only the `similarities` list). -/
def analyze_semantic_similarity (u : ℕ → ℚ) (k : ℕ)
    (source_schema target_schema : List (String × String)) : List Similarity :=
  match source_schema with
  | [] => []
  | (source_field, source_type) :: rest =>
      let scored := candidates_for u k source_field source_type target_schema
      match select_best scored.1 with
      | some c =>
          ⟨source_field, c.target_field, round3 c.confidence⟩ ::
            analyze_semantic_similarity u scored.2 rest target_schema
      | none => analyze_semantic_similarity u scored.2 rest target_schema

/-- Fixed field-name mapping table of
`EnhancedNegotiator._mock_semantic_analysis` in `enhanced_demo.py`. -/
def demo_mappings : List (String × String) :=
  [ ("nome", "firstName"), ("cognome", "lastName"), ("codice_fiscale", "taxId"),
    ("data_nascita", "birthDate"), ("luogo_nascita", "birthPlace"),
    ("user_id", "personalId") ]

/-- One alignment produced by `EnhancedNegotiator._mock_semantic_analysis`
(the constant `method` and presentational `explanation` strings omitted). -/
structure DemoAlignment where
  source_field : String
  target_field : String
  confidence : ℚ
deriving DecidableEq

/-- Embedding of `EnhancedNegotiator._mock_semantic_analysis` from
`enhanced_demo.py`: a source field is aligned exactly when it occurs in the
mapping table and its mapped target occurs in the target schema; the
confidence is `0.85 + random.uniform(0, 0.1)`, modelled with the `random()`
draw stream `u` and next-draw index `k`. -/
def mock_semantic_analysis (u : ℕ → ℚ) (k : ℕ)
    (source_schema target_schema : List (String × String)) : List DemoAlignment :=
  match source_schema with
  | [] => []
  | (source_field, _) :: rest =>
      match dict_find demo_mappings source_field with
      | some target_field =>
          if (dict_find target_schema target_field).isSome then
            ⟨source_field, target_field, 85/100 + 1/10 * u k⟩ ::
              mock_semantic_analysis u (k + 1) rest target_schema
          else mock_semantic_analysis u k rest target_schema
      | none => mock_semantic_analysis u k rest target_schema

/-! ## Helper lemmas about the embedded dictionary operations -/

theorem dict_find_mem_keys {α : Type} (d : List (String × α)) (k : String) (v : α)
    (h : dict_find d k = some v) : k ∈ d.map Prod.fst := by
  induction d with
  | nil => simp [dict_find] at h
  | cons hd tl ih =>
      obtain ⟨k₁, v₁⟩ := hd
      by_cases hk : k₁ = k
      · simp [hk]
      · simp only [dict_find, if_neg hk] at h
        simp [ih h]

theorem dict_set_keys {α : Type} (d : List (String × α)) (k : String) (v : α) :
    ∀ k₁ ∈ (dict_set d k v).map Prod.fst, k₁ = k ∨ k₁ ∈ d.map Prod.fst := by
  induction d with
  | nil => simp [dict_set]
  | cons hd tl ih =>
      obtain ⟨k₂, v₂⟩ := hd
      intro k₁ hk₁
      by_cases hk : k₂ = k
      · simp only [dict_set, if_pos hk, List.map_cons, List.mem_cons] at hk₁
        rcases hk₁ with h | h
        · exact Or.inl h
        · right; simp [h]
      · simp only [dict_set, if_neg hk, List.map_cons, List.mem_cons] at hk₁
        rcases hk₁ with h | h
        · right; simp [h]
        · rcases ih k₁ h with h₁ | h₁
          · exact Or.inl h₁
          · right; simp [h₁]

theorem dict_set_of_not_mem {α : Type} (d : List (String × α)) (k : String) (v : α)
    (h : k ∉ d.map Prod.fst) : dict_set d k v = d ++ [(k, v)] := by
  induction d with
  | nil => rfl
  | cons hd tl ih =>
      obtain ⟨k₁, v₁⟩ := hd
      simp only [List.map_cons, List.mem_cons] at h
      push_neg at h
      simp only [dict_set, if_neg (Ne.symm h.1), List.cons_append]
      rw [ih h.2]

/-! ## Helper lemmas about selection and rounding -/

theorem select_loop_spec (candidates : List Candidate) (bm : Option String) (bc : ℚ) :
    (select_loop candidates bm bc = (bm, bc) ∨
      ∃ c ∈ candidates, select_loop candidates bm bc = (some c.target_field, c.confidence))
    ∧ bc ≤ (select_loop candidates bm bc).2
    ∧ ∀ c ∈ candidates, c.confidence ≤ (select_loop candidates bm bc).2 := by
  induction candidates generalizing bm bc with
  | nil => exact ⟨Or.inl rfl, le_refl bc, by simp⟩
  | cons c rest ih =>
      by_cases hc : c.confidence > bc
      · have hrec := ih (some c.target_field) c.confidence
        refine ⟨?_, ?_, ?_⟩
        · rcases hrec.1 with h | h
          · right
            exact ⟨c, by simp, by simp only [select_loop, if_pos hc]; exact h⟩
          · obtain ⟨c₁, hmem, heq⟩ := h
            right
            exact ⟨c₁, by simp [hmem], by simp only [select_loop, if_pos hc]; exact heq⟩
        · simp only [select_loop, if_pos hc]
          exact le_trans (le_of_lt hc) hrec.2.1
        · intro c₁ hc₁
          simp only [select_loop, if_pos hc]
          rcases List.mem_cons.mp hc₁ with h | h
          · rw [h]; exact hrec.2.1
          · exact hrec.2.2 c₁ h
      · have hrec := ih bm bc
        refine ⟨?_, ?_, ?_⟩
        · rcases hrec.1 with h | h
          · left; simp only [select_loop, if_neg hc]; exact h
          · obtain ⟨c₁, hmem, heq⟩ := h
            right
            exact ⟨c₁, by simp [hmem], by simp only [select_loop, if_neg hc]; exact heq⟩
        · simp only [select_loop, if_neg hc]
          exact hrec.2.1
        · intro c₁ hc₁
          simp only [select_loop, if_neg hc]
          rcases List.mem_cons.mp hc₁ with h | h
          · rw [h]; exact le_trans (not_lt.mp hc) hrec.2.1
          · exact hrec.2.2 c₁ h

theorem round3_lower_bound (q : ℚ) : q - 1/2000 ≤ round3 q := by
  have h := abs_sub_round ((1000 : ℚ) * q)
  have h₁ : (1000 : ℚ) * q - round ((1000 : ℚ) * q) ≤ 1/2 := le_trans (le_abs_self _) h
  have h₂ : (1000 : ℚ) * q - 1/2 ≤ ((round ((1000 : ℚ) * q) : ℤ) : ℚ) := by linarith
  have h₃ : ((1000 : ℚ) * q - 1/2) / 1000 ≤ ((round ((1000 : ℚ) * q) : ℤ) : ℚ) / 1000 := by
    apply div_le_div_of_nonneg_right h₂
    norm_num
  unfold round3
  calc q - 1/2000 = ((1000 : ℚ) * q - 1/2) / 1000 := by ring
    _ ≤ _ := h₃

theorem pair_score_confidence_cases (u : ℕ → ℚ) (k : ℕ)
    (source_field target_field source_type : String) (target_type : Option String)
    (hu : 0 ≤ u k) :
    (pair_score u k source_field target_field source_type target_type).1 = 0
    ∨ 2/5 ≤ (pair_score u k source_field target_field source_type target_type).1 := by
  unfold pair_score
  by_cases h₁ : lower_str source_field = lower_str target_field
  · right; simp only [if_pos h₁]; norm_num
  · simp only [if_neg h₁]
    cases dict_find semantic_mappings source_field with
    | some targets =>
        by_cases h₂ : target_field ∈ targets
        · right; simp only [if_pos h₂]; linarith
        · left; simp only [if_neg h₂]
    | none =>
        by_cases h₃ : (split_on_char '_' (lower_str source_field).data).any
            (fun part => list_is_infix_of part (lower_str target_field).data) = true
        · right; simp only [if_pos h₃]; linarith
        · simp only [if_neg h₃]
          by_cases h₄ : target_type = some source_type
          · right; simp only [if_pos h₄]; linarith
          · left; simp only [if_neg h₄]

theorem candidates_for_confidence_cases (u : ℕ → ℚ) (k : ℕ)
    (source_field source_type : String) (target_schema : List (String × String))
    (hu : ∀ n, 0 ≤ u n) :
    ∀ c ∈ (candidates_for u k source_field source_type target_schema).1,
      c.confidence = 0 ∨ 2/5 ≤ c.confidence := by
  induction target_schema generalizing k with
  | nil => simp [candidates_for]
  | cons hd tl ih =>
      obtain ⟨target_field, target_type⟩ := hd
      intro c hc
      simp only [candidates_for, List.mem_cons] at hc
      rcases hc with h | h
      · rw [h]
        exact pair_score_confidence_cases u k source_field target_field source_type
          (some target_type) (hu k)
      · exact ih _ c h

theorem select_best_spec (candidates : List Candidate) :
    ∀ best, select_best candidates = some best →
      best ∈ candidates ∧ 3/10 < best.confidence := by
  intro best hbest
  have hspec := select_loop_spec candidates none 0
  unfold select_best at hbest
  rcases h : select_loop candidates none 0 with ⟨bm, bc⟩
  rw [h] at hbest hspec
  cases bm with
  | none => simp at hbest
  | some t =>
      by_cases hguard : (¬ t.data.isEmpty ∧ bc > 3/10)
      · simp only [if_pos hguard] at hbest
        rcases hspec.1 with h₁ | h₁
        · exact absurd (congrArg Prod.fst h₁) (by simp)
        · obtain ⟨c, hmem, heq⟩ := h₁
          have ht : t = c.target_field := by
            have h₂ := congrArg Prod.fst heq
            simpa using h₂
          have hc : bc = c.confidence := congrArg Prod.snd heq
          have hbesteq : best = c := by
            have h₃ : Candidate.mk t bc = best := by simpa using hbest
            rw [← h₃, ht, hc]
          rw [hbesteq]
          exact ⟨hmem, hc ▸ hguard.2⟩
      · simp only [if_neg hguard] at hbest
        simp at hbest

/-! ## Claim C8: alignment-selector floor policy -/

/-- C8 counterexample: the claim asserts that a best candidate whose score is
exactly the minimum floor 0.3 is selected; the code guard
`best_match and best_confidence > 0.3` is strict, so a single candidate at
exactly 3/10 is rejected and no selection is returned. -/
theorem C8_counterexample :
    select_best [⟨"geburtsdatum", 3/10⟩] = none
    ∧ (Candidate.mk "geburtsdatum" (3/10)).confidence = 3/10 := by
  with_unfolding_all decide

/-- C8 (amended): the selection loop picks the maximum-score candidate
(earliest on ties) and returns a selection exactly when that maximum is
strictly greater than the floor 0.3; a maximum exactly at the floor is
rejected.  The hypothesis excludes empty-string target names, which Python
string truthiness would also reject. -/
theorem C8_amended (candidates : List Candidate)
    (h : ∀ c ∈ candidates, ¬ c.target_field.data.isEmpty) :
    (∀ best, select_best candidates = some best →
        best ∈ candidates ∧ 3/10 < best.confidence
        ∧ ∀ c ∈ candidates, c.confidence ≤ best.confidence)
    ∧ (select_best candidates = none → ∀ c ∈ candidates, c.confidence ≤ 3/10) := by
  have hspec := select_loop_spec candidates none 0
  rcases hloop : select_loop candidates none 0 with ⟨bm, bc⟩
  rw [hloop] at hspec
  constructor
  · intro best hbest
    refine ⟨(select_best_spec candidates best hbest).1,
      (select_best_spec candidates best hbest).2, ?_⟩
    unfold select_best at hbest
    rw [hloop] at hbest
    cases bm with
    | none => simp at hbest
    | some t =>
        by_cases hguard : (¬ t.data.isEmpty ∧ bc > 3/10)
        · simp only [if_pos hguard] at hbest
          have hbc : best.confidence = bc := by
            have h₃ : Candidate.mk t bc = best := by simpa using hbest
            rw [← h₃]
          rw [hbc]
          exact fun c hc => hspec.2.2 c hc
        · simp only [if_neg hguard] at hbest
          simp at hbest
  · intro hnone c hc
    unfold select_best at hnone
    rw [hloop] at hnone
    cases bm with
    | none =>
        have hbc : bc = 0 := by
          rcases hspec.1 with h₁ | h₁
          · simpa using congrArg Prod.snd h₁
          · obtain ⟨c₁, _, heq⟩ := h₁
            exact absurd (congrArg Prod.fst heq) (by simp)
        have h₅ : c.confidence ≤ bc := hspec.2.2 c hc
        rw [hbc] at h₅
        linarith
    | some t =>
        by_cases hguard : (¬ t.data.isEmpty ∧ bc > 3/10)
        · simp only [if_pos hguard] at hnone
          simp at hnone
        · have hne : ¬ t.data.isEmpty := by
            rcases hspec.1 with h₁ | h₁
            · exact absurd (congrArg Prod.fst h₁) (by simp)
            · obtain ⟨c₁, hm₁, heq⟩ := h₁
              have ht : t = c₁.target_field := by
                simpa using congrArg Prod.fst heq
              rw [ht]
              exact h c₁ hm₁
          have hlt : ¬ bc > 3/10 := fun hgt => hguard ⟨hne, hgt⟩
          have h₅ : c.confidence ≤ bc := hspec.2.2 c hc
          have h₆ : bc ≤ 3/10 := not_lt.mp hlt
          linarith

/-- C8 witness: with a single candidate scored 19/20 the selector keeps it;
the amended theorem applied there yields membership and floor clearance. -/
theorem C8_amended_witness :
    (Candidate.mk "familienname" (19/20)) ∈ [Candidate.mk "familienname" (19/20)]
    ∧ 3/10 < (Candidate.mk "familienname" (19/20)).confidence :=
  ⟨((C8_amended [Candidate.mk "familienname" (19/20)] (by decide)).1
      (Candidate.mk "familienname" (19/20)) (by with_unfolding_all decide)).1,
    ((C8_amended [Candidate.mk "familienname" (19/20)] (by decide)).1
      (Candidate.mk "familienname" (19/20)) (by with_unfolding_all decide)).2.1⟩

/-! ## Claim C3: sub-floor source fields -/

/-- C3 counterexample: the source field `xyz` has no candidate clearing the
floor, and the analysis result is the empty similarity list — the result
carries no record of `xyz` at all (the code has no `unmatched_source_fields`),
so the field is silently dropped rather than recorded. -/
theorem C3_counterexample :
    analyze_semantic_similarity (fun _ => 0) 0 [("xyz", "boolean")] [("firstName", "string")] = []
    ∧ "xyz" ∈ ([("xyz", "boolean")].map Prod.fst) := by
  with_unfolding_all decide

/-- C3 (amended): a source field whose best candidate does not clear the floor
yields no similarity entry and is silently omitted — every entry that does
appear clears the floor (its rounded confidence exceeds 3/10) and names one of
the source fields; the analysis is a total function, so no exception is
raised.  The hypothesis bounds the `random()` draws below by 0 as CPython
guarantees. -/
theorem C3_amended (u : ℕ → ℚ) (k : ℕ) (source_schema target_schema : List (String × String))
    (hu : ∀ n, 0 ≤ u n) :
    ∀ sim ∈ analyze_semantic_similarity u k source_schema target_schema,
      3/10 < sim.confidence ∧ sim.source_field ∈ source_schema.map Prod.fst := by
  induction source_schema generalizing k with
  | nil => simp [analyze_semantic_similarity]
  | cons hd tl ih =>
      obtain ⟨sf, st⟩ := hd
      intro sim hsim
      simp only [analyze_semantic_similarity] at hsim
      cases hsel : select_best (candidates_for u k sf st target_schema).1 with
      | none =>
          rw [hsel] at hsim
          have htail := ih _ sim hsim
          exact ⟨htail.1, List.mem_cons_of_mem _ htail.2⟩
      | some c =>
          rw [hsel] at hsim
          rcases List.mem_cons.mp hsim with hhead | htail
          · have hc := select_best_spec _ c hsel
            have hcases := candidates_for_confidence_cases u k sf st target_schema hu c hc.1
            have h₂₅ : 2/5 ≤ c.confidence := by
              rcases hcases with h₀ | h₂₅
              · rw [h₀] at hc
                linarith [hc.2]
              · exact h₂₅
            have hr := round3_lower_bound c.confidence
            constructor
            · rw [hhead]
              show 3/10 < round3 c.confidence
              linarith
            · rw [hhead]
              simp
          · have h₄ := ih _ sim htail
            exact ⟨h₄.1, List.mem_cons_of_mem _ h₄.2⟩

/-- C3 witness: the `nome` source field clears the floor against `firstName`
(semantic-synonym branch at draw 0 scores 9/10), and the amended theorem
applied there confirms its entry clears the floor and names a source field. -/
theorem C3_amended_witness :
    3/10 < (Similarity.mk "nome" "firstName" (9/10)).confidence
    ∧ (Similarity.mk "nome" "firstName" (9/10)).source_field
        ∈ ([("nome", "string")].map Prod.fst) :=
  C3_amended (fun _ => 0) 0 [("nome", "string")] [("firstName", "string")] (fun _ => le_refl 0)
    (Similarity.mk "nome" "firstName" (9/10)) (by with_unfolding_all decide)

/-! ## Claim C1: overall confidence versus the mean of alignment confidences -/

/-- C1 counterexample: the fallback negotiation of
`_perform_semantic_negotiation` reports the fixed demo confidence 0.85, but
the arithmetic mean of the confidences of the seven fallback alignments it
produces is 299/350 (about 0.8543), so for that completed negotiation the
reported overall confidence is not the mean of the produced alignments. -/
theorem C1_counterexample :
    calculate_overall_confidence
        (fallback_rule_based_alignment.map (fun a => a.confidence_score)) = 299/350
    ∧ fallback_confidence_score ≠ 299/350 := by
  with_unfolding_all decide

/-- C1 (amended): the server-side `_calculate_overall_confidence` does return
the arithmetic mean of the given alignment confidences, and 0.0 when there
are none; the cross-border agent negotiation instead stores an externally
computed f-score, or the fixed value 0.85 on its fallback path. -/
theorem C1_amended_mean (confidences : List ℚ) :
    (confidences = [] → calculate_overall_confidence confidences = 0)
    ∧ (confidences ≠ [] →
        calculate_overall_confidence confidences = confidences.sum / confidences.length) := by
  constructor
  · intro h
    simp [calculate_overall_confidence, h]
  · intro h
    simp [calculate_overall_confidence, h]

/-- C1 witness: the amended theorem evaluated on a two-element confidence
list gives the mean (9/10 + 7/10) / 2 = 4/5. -/
theorem C1_amended_mean_witness :
    calculate_overall_confidence [9/10, 7/10] = 4/5 := by
  rw [(C1_amended_mean [9/10, 7/10]).2 (by simp)]
  with_unfolding_all decide

/-! ## Claim C2: approval decision at the confidence threshold -/

/-- C2: in `process_cross_border_request` the status is `approved` exactly
when the confidence score reaches the threshold (so equality at the boundary
approves), and `requires_manual_review` (manual review) otherwise. -/
theorem C2_decision (confidence_score confidence_threshold : ℚ) :
    (request_status confidence_score confidence_threshold = "approved"
      ↔ confidence_threshold ≤ confidence_score)
    ∧ request_status confidence_threshold confidence_threshold = "approved"
    ∧ (confidence_score < confidence_threshold →
        request_status confidence_score confidence_threshold = "requires_manual_review") := by
  refine ⟨?_, ?_, ?_⟩
  · rcases le_or_lt confidence_threshold confidence_score with h | h
    · simp [request_status, ge_iff_le, h]
    · rw [request_status, if_neg (by simpa using not_le.mpr h)]
      constructor
      · intro hcontra
        exact absurd hcontra (by decide)
      · intro hle
        exact absurd hle (not_le.mpr h)
  · simp [request_status]
  · intro h
    rw [request_status, if_neg (by simpa using not_le.mpr h)]

/-- C2 witness: at the boundary 4/5 against threshold 4/5 the decision is
`approved`; strictly below (1/2 against 4/5) it is manual review. -/
theorem C2_decision_witness :
    request_status (4/5) (4/5) = "approved"
    ∧ request_status (1/2) (4/5) = "requires_manual_review" :=
  ⟨(C2_decision (4/5) (4/5)).2.1, (C2_decision (1/2) (4/5)).2.2 (by norm_num)⟩

/-! ## Claim C6: exact case-insensitive name matches -/

/-- C6: whenever the lower-cased source and target field names coincide, the
per-pair scorer takes its first branch and returns score 0.95 with the
exact-name basis, regardless of the random draws, the draw counter, or the
declared types. -/
theorem C6_exact_name (u : ℕ → ℚ) (k : ℕ) (source_field target_field source_type : String)
    (target_type : Option String) (h : lower_str source_field = lower_str target_field) :
    pair_score u k source_field target_field source_type target_type
      = (95/100, MatchBasis.exact, k) := by
  simp [pair_score, h]

/-- C6 witness: `Nome` and `nome` coincide ignoring case and score 0.95 with
the exact-name basis. -/
theorem C6_exact_name_witness :
    pair_score (fun _ => 0) 0 "Nome" "nome" "string" (some "string")
      = (95/100, MatchBasis.exact, 0) :=
  C6_exact_name (fun _ => 0) 0 "Nome" "nome" "string" (some "string") (by decide)

/-! ## Claim C7: date-format value conversion -/

/-- C7: under the Italy-to-Germany date rule, `15/03/1985` converts to the
ISO date `1985-03-15` with the implementation's midnight-UTC time component;
in general any string that parses in `%d/%m/%Y` is rendered in the target
format without a warning, and any string that fails to parse is returned
unchanged with the warning flag, the embedded converter being total (the
`except ValueError` handler, so no exception reaches the caller). -/
theorem C7_date_format :
    transform_date_format "15/03/1985" CountryCode.ITALY CountryCode.GERMANY
      = ("1985-03-15T00:00:00Z", false)
    ∧ (∀ s y m d, strptime_dd_mm_yyyy s = some (y, m, d) →
        transform_date_format s CountryCode.ITALY CountryCode.GERMANY
          = (strftime_iso_z y m d, false))
    ∧ (∀ s, strptime_dd_mm_yyyy s = none →
        transform_date_format s CountryCode.ITALY CountryCode.GERMANY = (s, true)) := by
  refine ⟨by decide, ?_, ?_⟩
  · intro s y m d h
    simp [transform_date_format, h]
  · intro s h
    simp [transform_date_format, h]

/-- C7 witness: `31/02/1985` fails to parse (February has no day 31), and the
theorem's failure clause returns it unchanged with the warning flag. -/
theorem C7_date_format_witness :
    transform_date_format "31/02/1985" CountryCode.ITALY CountryCode.GERMANY
      = ("31/02/1985", true) :=
  C7_date_format.2.2 "31/02/1985" (by decide)

/-! ## Claim C9: enum-map value conversion -/

/-- C9: under the `sesso` to `geschlecht` enum rule, `M` maps to `MALE` and
`F` to `FEMALE`, and any value outside the mapping table passes through
unchanged. -/
theorem C9_enum_map :
    transform_enum_value "M" "sesso" "geschlecht" = "MALE"
    ∧ transform_enum_value "F" "sesso" "geschlecht" = "FEMALE"
    ∧ (∀ v, v ≠ "M" → v ≠ "F" → transform_enum_value v "sesso" "geschlecht" = v) := by
  refine ⟨by decide, by decide, ?_⟩
  intro v h₁ h₂
  simp [transform_enum_value, h₁, h₂]

/-- C9 witness: the unknown value `X` passes through the enum rule
unchanged. -/
theorem C9_enum_map_witness :
    transform_enum_value "X" "sesso" "geschlecht" = "X" :=
  C9_enum_map.2.2 "X" (by decide) (by decide)

/-! ## Claim C5: determinism of the similarity scoring -/

/-- C5 counterexample: the mock semantic analysis adds `random.uniform(0,
0.1)` jitter to each confidence, so two runs on the same source field and
target list with different admissible `random()` draws (0 and 1/2, both in
`[0, 1)`) produce different scores — the scoring is not deterministic. -/
theorem C5_counterexample :
    mock_semantic_analysis (fun _ => 0) 0 [("nome", "string")] [("firstName", "string")]
      ≠ mock_semantic_analysis (fun _ => 1/2) 0 [("nome", "string")] [("firstName", "string")]
    ∧ (0 : ℚ) ≤ 0 ∧ (0 : ℚ) < 1 ∧ (0 : ℚ) ≤ 1/2 ∧ (1/2 : ℚ) < 1 := by
  with_unfolding_all decide

/-- C5 (amended): only the confidences are randomized — the produced
source-to-target candidate pairs of the mock semantic analysis do not depend
on the random draws or the draw counter, so two runs on the same schemas
produce identical matches, with possibly different scores. -/
theorem C5_amended (u v : ℕ → ℚ) (j k : ℕ)
    (source_schema target_schema : List (String × String)) :
    (mock_semantic_analysis u j source_schema target_schema).map
        (fun a => (a.source_field, a.target_field))
      = (mock_semantic_analysis v k source_schema target_schema).map
          (fun a => (a.source_field, a.target_field)) := by
  induction source_schema generalizing j k with
  | nil => rfl
  | cons hd tl ih =>
      obtain ⟨sf, st⟩ := hd
      simp only [mock_semantic_analysis]
      cases dict_find demo_mappings sf with
      | none => exact ih j k
      | some tf =>
          cases hmem : (dict_find target_schema tf).isSome with
          | false =>
              simp only [hmem, Bool.false_eq_true, if_false]
              exact ih j k
          | true =>
              simp only [hmem, if_true, List.map_cons]
              rw [ih (j + 1) (k + 1)]

/-! ## Claim C4: transformed output coverage -/

theorem transform_citizen_loop_keys (alignments : List SemanticAlignment)
    (source_dict : List (String × Value)) (source_country target_country : CountryCode)
    (td out : List (String × Value))
    (h : transform_citizen_loop alignments source_dict source_country target_country td
      = .ok out) :
    ∀ k ∈ out.map Prod.fst,
      (∃ a ∈ alignments, a.target_field = k ∧ a.source_field ∈ source_dict.map Prod.fst)
      ∨ k ∈ td.map Prod.fst := by
  induction alignments generalizing td with
  | nil =>
      simp only [transform_citizen_loop, Except.ok.injEq] at h
      intro k hk
      right
      rw [h]
      exact hk
  | cons a rest ih =>
      simp only [transform_citizen_loop] at h
      cases hfind : dict_find source_dict a.source_field with
      | none =>
          simp only [hfind] at h
          intro k hk
          rcases ih td h k hk with h₁ | h₁
          · left
            obtain ⟨b, hb, hbt, hbs⟩ := h₁
            exact ⟨b, List.mem_cons_of_mem _ hb, hbt, hbs⟩
          · right
            exact h₁
      | some v =>
          simp only [hfind] at h
          cases happ : apply_field_transformation v a source_country target_country with
          | error e =>
              simp only [happ] at h
              simp at h
          | ok tv =>
              simp only [happ] at h
              intro k hk
              rcases ih _ h k hk with h₁ | h₁
              · left
                obtain ⟨b, hb, hbt, hbs⟩ := h₁
                exact ⟨b, List.mem_cons_of_mem _ hb, hbt, hbs⟩
              · rcases dict_set_keys td a.target_field tv k h₁ with h₂ | h₂
                · left
                  exact ⟨a, List.mem_cons_self a rest, h₂.symm, dict_find_mem_keys _ _ _ hfind⟩
                · right
                  exact h₂

/-- C4 counterexample: with no alignments at all, transforming an Italian
record that contains `codice_fiscale` towards Germany produces an output
whose `staatsangehoerigkeit` entry no alignment maps to — the nationality
special case adds it anyway, contradicting the claim that target fields with
no alignment are absent from the transformed output. -/
theorem C4_counterexample :
    transform_citizen_data [] [("codice_fiscale", Value.vstr "RSSMRC85C15H501Z")]
        CountryCode.ITALY CountryCode.GERMANY
      = Except.ok [("staatsangehoerigkeit", Value.vstr "Italian")]
    ∧ "staatsangehoerigkeit"
        ∈ ([("staatsangehoerigkeit", Value.vstr "Italian")].map Prod.fst) :=
  ⟨rfl, by decide⟩

/-- C4 (amended): whenever `transform_citizen_data` returns a record, every
key of that record is either the target field of an alignment whose source
field is present in the source record, or the `staatsangehoerigkeit` entry
written by the nationality special case when the record contains
`codice_fiscale` and the target country is Germany; in particular alignments
whose source field is absent contribute nothing. -/
theorem C4_amended (alignments : List SemanticAlignment)
    (source_dict : List (String × Value)) (source_country target_country : CountryCode)
    (out : List (String × Value))
    (h : transform_citizen_data alignments source_dict source_country target_country
      = .ok out) :
    ∀ k ∈ out.map Prod.fst,
      (∃ a ∈ alignments, a.target_field = k ∧ a.source_field ∈ source_dict.map Prod.fst)
      ∨ (k = "staatsangehoerigkeit" ∧ "codice_fiscale" ∈ source_dict.map Prod.fst
          ∧ target_country = CountryCode.GERMANY) := by
  unfold transform_citizen_data at h
  cases hloop : transform_citizen_loop alignments source_dict source_country target_country []
    with
  | error e =>
      simp only [hloop] at h
      simp at h
  | ok td =>
      simp only [hloop] at h
      cases hcf : dict_find source_dict ("codice_fiscale") with
      | none =>
          simp only [hcf] at h
          injection h with h
          intro k hk
          rw [← h] at hk
          rcases transform_citizen_loop_keys _ _ _ _ _ _ hloop k hk with h₁ | h₁
          · exact Or.inl h₁
          · simp at h₁
      | some cf =>
          simp only [hcf] at h
          by_cases hde : target_country = CountryCode.GERMANY
          · rw [if_pos hde] at h
            injection h with h
            intro k hk
            rw [← h] at hk
            rcases dict_set_keys td _ _ k hk with h₂ | h₂
            · exact Or.inr ⟨h₂, dict_find_mem_keys _ _ _ hcf, hde⟩
            · rcases transform_citizen_loop_keys _ _ _ _ _ _ hloop k h₂ with h₃ | h₃
              · exact Or.inl h₃
              · simp at h₃
          · rw [if_neg hde] at h
            injection h with h
            intro k hk
            rw [← h] at hk
            rcases transform_citizen_loop_keys _ _ _ _ _ _ hloop k hk with h₁ | h₁
            · exact Or.inl h₁
            · simp at h₁

/-- C4 witness: transforming the record `{cognome: Rossi}` with the single
`cognome` to `familienname` direct-map alignment yields an output whose only
key is covered by that alignment, as the amended theorem states. -/
theorem C4_amended_witness :
    (∃ a ∈ [SemanticAlignment.mk "cognome" "familienname" (95/100) "exact"
        "DIRECT_MAP(cognome -> familienname)"],
      a.target_field = "familienname"
      ∧ a.source_field ∈ ([("cognome", Value.vstr "Rossi")].map Prod.fst))
    ∨ ("familienname" = "staatsangehoerigkeit"
        ∧ "codice_fiscale" ∈ ([("cognome", Value.vstr "Rossi")].map Prod.fst)
        ∧ CountryCode.GERMANY = CountryCode.GERMANY) :=
  C4_amended
    [SemanticAlignment.mk "cognome" "familienname" (95/100) "exact"
      "DIRECT_MAP(cognome -> familienname)"]
    [("cognome", Value.vstr "Rossi")] CountryCode.ITALY CountryCode.GERMANY
    [("familienname", Value.vstr "Rossi")] rfl "familienname" (by decide)

/-! ## Claim C10: the transformation map -/

theorem build_transformation_map_loop (confidence_threshold : ℚ)
    (alignments : List SemanticAlignment) (acc : List (String × String))
    (hnd : (alignments.map (fun a => a.source_field)).Nodup)
    (hdisj : ∀ a ∈ alignments, a.source_field ∉ acc.map Prod.fst) :
    alignments.foldl
        (fun m a =>
          if a.confidence_score ≥ confidence_threshold then
            dict_set m a.source_field a.target_field
          else m)
        acc
      = acc ++ (alignments.filter
          (fun a => confidence_threshold ≤ a.confidence_score)).map
            (fun a => (a.source_field, a.target_field)) := by
  induction alignments generalizing acc with
  | nil => simp
  | cons a rest ih =>
      simp only [List.map_cons, List.nodup_cons] at hnd
      have hne : ∀ b ∈ rest, b.source_field ≠ a.source_field := by
        intro b hb hcontra
        exact hnd.1 (hcontra ▸ List.mem_map_of_mem (fun x => x.source_field) hb)
      simp only [List.foldl_cons]
      by_cases hq : a.confidence_score ≥ confidence_threshold
      · rw [if_pos hq]
        rw [dict_set_of_not_mem _ _ _ (hdisj a (List.mem_cons_self a rest))]
        rw [ih _ hnd.2 ?hdisj₂]
        case hdisj₂ =>
          intro b hb
          simp only [List.map_append, List.mem_append]
          push_neg
          refine ⟨hdisj b (List.mem_cons_of_mem a hb), ?_⟩
          simp [hne b hb]
        rw [List.filter_cons, if_pos (by simpa using hq)]
        simp
      · rw [if_neg hq]
        rw [ih _ hnd.2 (fun b hb => hdisj b (List.mem_cons_of_mem a hb))]
        rw [List.filter_cons, if_neg (by simpa using hq)]

/-- C10: the transformation map built from a negotiation result (one
alignment per source field) contains exactly the source-to-target pairs of
the alignments whose confidence reaches the agent confidence threshold, in
order; alignments below the threshold never appear. -/
theorem C10_transformation_map (confidence_threshold : ℚ)
    (alignments : List SemanticAlignment)
    (hnd : (alignments.map (fun a => a.source_field)).Nodup) :
    build_transformation_map confidence_threshold alignments
      = (alignments.filter
          (fun a => confidence_threshold ≤ a.confidence_score)).map
            (fun a => (a.source_field, a.target_field)) := by
  have h := build_transformation_map_loop confidence_threshold alignments [] hnd (by simp)
  simpa [build_transformation_map] using h

/-- C10 witness: at the default threshold 0.8 the fallback alignments give a
transformation map holding exactly the five pairs with confidence at least
0.8 — `genitori` (0.78) and `codice_fiscale` (0.65) are excluded. -/
theorem C10_transformation_map_witness :
    build_transformation_map (4/5) fallback_rule_based_alignment
      = [("cognome", "familienname"), ("nome", "vorname"),
          ("data_nascita", "geburtsdatum"), ("luogo_nascita", "geburtsort"),
          ("sesso", "geschlecht")] := by
  rw [C10_transformation_map (4/5) fallback_rule_based_alignment (by decide)]
  with_unfolding_all decide
